import Mathlib

/-!
# Verification of the S3 bucket ACL resource-identifier codec

Shallow embedding of `BucketACLCreateResourceID` and `BucketACLParseResourceID`
from `internal/service/s3/bucket_acl.go`.  Go strings are modelled as `List Char`;
`strings.Split` and `strings.Join` are modelled at the single-character-separator
instance the codec uses.
-/

/-- The `BucketAclSeparator` constant (`"/"`, a single character). -/
def BucketAclSeparator : Char := '/'

/-- The `BucketAndExpectedBucketOwnerSeparator` constant (`","`, a single character). -/
def BucketAndExpectedBucketOwnerSeparator : Char := ','

/-- Go `strings.Split(s, sep)` for a one-character separator `sep`: splits `s`
around every occurrence of `sep`; the result always has `count sep s + 1` parts,
and `Split("") = [""]`. -/
def stringsSplit (sep : Char) : List Char → List (List Char)
  | [] => [[]]
  | c :: rest =>
    if c = sep then [] :: stringsSplit sep rest
    else
      match stringsSplit sep rest with
      | [] => [[c]]
      | p :: ps => (c :: p) :: ps

/-- Go `strings.Join(parts, sep)`: concatenates `parts` with `sep` between
consecutive elements. -/
def stringsJoin (sep : List Char) : List (List Char) → List Char
  | [] => []
  | [x] => x
  | x :: xs => x ++ sep ++ stringsJoin sep xs

/-- `BucketACLCreateResourceID(bucket, expectedBucketOwner, acl)` from
`bucket_acl.go`: encodes the triple into a single ID string. -/
def BucketACLCreateResourceID (bucket expectedBucketOwner acl : List Char) : List Char :=
  if expectedBucketOwner = [] then
    if acl = [] then bucket
    else stringsJoin [BucketAclSeparator] [bucket, acl]
  else if acl = [] then
    stringsJoin [BucketAndExpectedBucketOwnerSeparator] [bucket, expectedBucketOwner]
  else
    stringsJoin [BucketAclSeparator]
      [stringsJoin [BucketAndExpectedBucketOwnerSeparator] [bucket, expectedBucketOwner], acl]

/-- The four named results of `BucketACLParseResourceID`; the Go zero values are
`[]` for the three string fields and `none` (nil error) for `err`.  A non-nil
error carries its message string. -/
structure ParseResult where
  bucket : List Char
  expectedBucketOwner : List Char
  acl : List Char
  err : Option (List Char)
deriving DecidableEq

/-- The message of the `fmt.Errorf` call in `BucketACLParseResourceID`, with the
format verbs `%s`, `%[2]s`, `%[3]s` expanded against `id` and the two separator
constants. -/
def malformedIDError (id : List Char) : List Char :=
  "unexpected format for ID (".data ++ id ++ "), expected BUCKET or BUCKET".data
    ++ [BucketAndExpectedBucketOwnerSeparator] ++ "EXPECTED_BUCKET_OWNER or BUCKET".data
    ++ [BucketAclSeparator] ++ "ACL or BUCKET".data
    ++ [BucketAndExpectedBucketOwnerSeparator] ++ "EXPECTED_BUCKET_OWNER".data
    ++ [BucketAclSeparator] ++ "ACL".data

/-- `BucketACLParseResourceID(id)` from `bucket_acl.go`.  The Go function tests
`len(parts) == 1` and then `len(parts) == 2` in sequence; these length guards are
mutually exclusive, rendered here as one match on the shape of `parts`.  Inner
branches that fail their guards fall through to the trailing error, exactly as
the Go control flow does. -/
def BucketACLParseResourceID (id : List Char) : ParseResult :=
  match stringsSplit BucketAndExpectedBucketOwnerSeparator id with
  | [p0] =>
    if p0 ≠ [] then
      match stringsSplit BucketAclSeparator p0 with
      | [b] => ⟨b, [], [], none⟩
      | [b, a] =>
        if b ≠ [] ∧ a ≠ [] then ⟨b, [], a, none⟩
        else ⟨[], [], [], some (malformedIDError id)⟩
      | _ => ⟨[], [], [], some (malformedIDError id)⟩
    else ⟨[], [], [], some (malformedIDError id)⟩
  | [p0, p1] =>
    if p0 ≠ [] ∧ p1 ≠ [] then
      match stringsSplit BucketAclSeparator p1 with
      | [o] => ⟨p0, o, [], none⟩
      | [o, a] =>
        if o ≠ [] ∧ a ≠ [] then ⟨p0, o, a, none⟩
        else ⟨[], [], [], some (malformedIDError id)⟩
      | _ => ⟨[], [], [], some (malformedIDError id)⟩
    else ⟨[], [], [], some (malformedIDError id)⟩
  | _ => ⟨[], [], [], some (malformedIDError id)⟩

/-- The decode decision procedure exactly as the specification words it: split the
input on the qualifier separator; with exactly one part, which must be non-empty,
split it on the enumeration separator and accept one non-empty segment or two
non-empty segments; with exactly two parts, both non-empty, split only the second
part the same way; every other shape is an error (`none`). -/
def specDecode (id : List Char) : Option (List Char × List Char × List Char) :=
  match stringsSplit BucketAndExpectedBucketOwnerSeparator id with
  | [part] =>
    if part = [] then none
    else
      match stringsSplit BucketAclSeparator part with
      | [seg] => if seg = [] then none else some (seg, [], [])
      | [seg0, seg1] =>
        if seg0 ≠ [] ∧ seg1 ≠ [] then some (seg0, [], seg1) else none
      | _ => none
  | [part0, part1] =>
    if part0 = [] ∨ part1 = [] then none
    else
      match stringsSplit BucketAclSeparator part1 with
      | [seg] => if seg = [] then none else some (part0, seg, [])
      | [seg0, seg1] =>
        if seg0 ≠ [] ∧ seg1 ≠ [] then some (part0, seg0, seg1) else none
      | _ => none
  | _ => none

/-- View of a parse result as the optional triple it carries: `none` when the
error is non-nil, otherwise the three string fields. -/
def ParseResult.toTriple (r : ParseResult) : Option (List Char × List Char × List Char) :=
  match r.err with
  | none => some (r.bucket, r.expectedBucketOwner, r.acl)
  | some _ => none

/-! ## Lemmas about the split/join model -/

theorem stringsSplit_ne_nil (sep : Char) (l : List Char) : stringsSplit sep l ≠ [] := by
  cases l with
  | nil => simp [stringsSplit]
  | cons c rest =>
    simp only [stringsSplit]
    split
    · simp
    · split <;> simp

theorem stringsSplit_of_not_mem {sep : Char} {l : List Char} (h : sep ∉ l) :
    stringsSplit sep l = [l] := by
  induction l with
  | nil => rfl
  | cons c rest ih =>
    rw [List.mem_cons, not_or] at h
    have hc : ¬ c = sep := fun hcs => h.1 hcs.symm
    rw [stringsSplit, if_neg hc, ih h.2]

theorem stringsSplit_append_cons {sep : Char} {xs : List Char} (ys : List Char)
    (h : sep ∉ xs) :
    stringsSplit sep (xs ++ sep :: ys) = xs :: stringsSplit sep ys := by
  induction xs with
  | nil => simp [stringsSplit]
  | cons c rest ih =>
    rw [List.mem_cons, not_or] at h
    have hc : ¬ c = sep := fun hcs => h.1 hcs.symm
    rw [List.cons_append, stringsSplit, if_neg hc, ih h.2]

theorem stringsJoin_nil (sep : List Char) : stringsJoin sep [] = [] := rfl

theorem stringsJoin_singleton (sep x : List Char) : stringsJoin sep [x] = x := rfl

theorem stringsJoin_cons_cons (sep x y : List Char) (ys : List (List Char)) :
    stringsJoin sep (x :: y :: ys) = x ++ sep ++ stringsJoin sep (y :: ys) := rfl

theorem stringsJoin_stringsSplit (sep : Char) (l : List Char) :
    stringsJoin [sep] (stringsSplit sep l) = l := by
  induction l with
  | nil => rfl
  | cons c rest ih =>
    by_cases hc : c = sep
    · subst hc
      rw [stringsSplit, if_pos rfl]
      cases hsp : stringsSplit c rest with
      | nil => exact absurd hsp (stringsSplit_ne_nil _ _)
      | cons p ps =>
        rw [hsp] at ih
        rw [stringsJoin_cons_cons]
        simpa using ih
    · rw [stringsSplit, if_neg hc]
      cases hsp : stringsSplit sep rest with
      | nil => exact absurd hsp (stringsSplit_ne_nil _ _)
      | cons p ps =>
        rw [hsp] at ih
        cases ps with
        | nil => simpa [stringsJoin_singleton] using ih
        | cons q qs =>
          rw [stringsJoin_cons_cons] at ih ⊢
          simp only [List.cons_append, List.append_assoc] at ih ⊢
          rw [ih]

theorem stringsSplit_sep_not_mem (sep : Char) (l : List Char) :
    ∀ x ∈ stringsSplit sep l, sep ∉ x := by
  induction l with
  | nil =>
    intro x hx
    simp only [stringsSplit, List.mem_singleton] at hx
    simp [hx]
  | cons c rest ih =>
    intro x hx
    by_cases hc : c = sep
    · subst hc
      rw [stringsSplit, if_pos rfl] at hx
      rcases List.mem_cons.mp hx with h | h
      · simp [h]
      · exact ih x h
    · rw [stringsSplit, if_neg hc] at hx
      cases hsp : stringsSplit sep rest with
      | nil => exact absurd hsp (stringsSplit_ne_nil _ _)
      | cons p ps =>
        rw [hsp] at hx
        rcases List.mem_cons.mp hx with h | h
        · subst h
          rw [List.mem_cons, not_or]
          refine ⟨fun hsc => hc hsc.symm, ?_⟩
          exact ih p (hsp ▸ List.mem_cons_self p ps)
        · exact ih x (hsp ▸ List.mem_cons_of_mem p h)

theorem stringsSplit_eq_single {sep : Char} {l x : List Char}
    (h : stringsSplit sep l = [x]) : x = l ∧ sep ∉ l := by
  have hj := stringsJoin_stringsSplit sep l
  rw [h, stringsJoin_singleton] at hj
  have hm : x ∈ stringsSplit sep l := by rw [h]; exact List.mem_singleton_self x
  refine ⟨hj, ?_⟩
  rw [← hj]
  exact stringsSplit_sep_not_mem sep l x hm

theorem stringsSplit_eq_pair {sep : Char} {l x y : List Char}
    (h : stringsSplit sep l = [x, y]) : l = x ++ sep :: y ∧ sep ∉ x ∧ sep ∉ y := by
  have hj := stringsJoin_stringsSplit sep l
  rw [h, stringsJoin_cons_cons, stringsJoin_singleton] at hj
  refine ⟨?_, ?_, ?_⟩
  · rw [← hj]; simp
  · exact stringsSplit_sep_not_mem sep l x (h ▸ List.mem_cons_self x [y])
  · exact stringsSplit_sep_not_mem sep l y
      (h ▸ List.mem_cons_of_mem x (List.mem_singleton_self y))

theorem length_stringsSplit (sep : Char) (l : List Char) :
    (stringsSplit sep l).length = l.count sep + 1 := by
  induction l with
  | nil => simp [stringsSplit]
  | cons c rest ih =>
    by_cases hc : c = sep
    · subst hc
      rw [stringsSplit, if_pos rfl]
      simp [ih, List.count_cons]
    · rw [stringsSplit, if_neg hc]
      cases hsp : stringsSplit sep rest with
      | nil => exact absurd hsp (stringsSplit_ne_nil _ _)
      | cons p ps =>
        rw [hsp] at ih
        simp only [List.length_cons] at ih ⊢
        rw [ih]
        have hsc : sep ≠ c := fun h => hc h.symm
        simp [List.count_cons, hc, hsc]


/-! ## Shared facts about the parser -/

theorem bucketACLParseResourceID_err_shape (id : List Char) :
    (BucketACLParseResourceID id).err = none ∨
    (BucketACLParseResourceID id).err = some (malformedIDError id) := by
  unfold BucketACLParseResourceID
  repeat' first
    | exact Or.inl rfl
    | exact Or.inr rfl
    | split

/-! ## Claims -/

/-- C2: for every triple of input strings, `BucketACLCreateResourceID bucket owner acl`
returns `bucket` when owner and acl are both empty; `bucket ++ "/" ++ acl` when only
acl is non-empty; `bucket ++ "," ++ owner` when only owner is non-empty; and
`bucket ++ "," ++ owner ++ "/" ++ acl` when both are non-empty. -/
theorem bucketACLCreateResourceID_shape_table (bucket expectedBucketOwner acl : List Char) :
    BucketACLCreateResourceID bucket expectedBucketOwner acl =
      if expectedBucketOwner = [] then
        if acl = [] then bucket
        else bucket ++ BucketAclSeparator :: acl
      else if acl = [] then
        bucket ++ BucketAndExpectedBucketOwnerSeparator :: expectedBucketOwner
      else
        bucket ++ BucketAndExpectedBucketOwnerSeparator ::
          (expectedBucketOwner ++ BucketAclSeparator :: acl) := by
  unfold BucketACLCreateResourceID
  split_ifs <;> simp [stringsJoin_cons_cons, stringsJoin_singleton]

/-- C5: parsing the empty string fails with the malformed-identifier error, and all
three string results are empty. -/
theorem bucketACLParseResourceID_empty_input :
    BucketACLParseResourceID [] = ⟨[], [], [], some (malformedIDError [])⟩ := by
  decide

/-- C6: parsing the one-character inputs `"/"` and `","` each returns a non-nil
error. -/
theorem bucketACLParseResourceID_delimiter_only :
    (BucketACLParseResourceID [BucketAclSeparator]).err ≠ none ∧
    (BucketACLParseResourceID [BucketAndExpectedBucketOwnerSeparator]).err ≠ none := by
  constructor <;> decide

/-- C4: encoding is total — `BucketACLCreateResourceID` returns a plain string for
every input triple and has no error output — and the malformed-identifier error
belongs to the parser alone: every non-nil error `BucketACLParseResourceID`
returns is the malformed-identifier message for its input. -/
theorem bucketACLCreateResourceID_total_and_error_locality :
    (∀ bucket expectedBucketOwner acl : List Char,
      ∃ s : List Char, BucketACLCreateResourceID bucket expectedBucketOwner acl = s) ∧
    (∀ id msg : List Char,
      (BucketACLParseResourceID id).err = some msg → msg = malformedIDError id) := by
  refine ⟨fun bucket owner acl => ⟨_, rfl⟩, fun id msg h => ?_⟩
  rcases bucketACLParseResourceID_err_shape id with h0 | h0 <;> rw [h0] at h
  · simp at h
  · exact (Option.some_inj.mp h).symm

theorem bucketACLCreateResourceID_total_and_error_locality_witness :
    (∃ s : List Char, BucketACLCreateResourceID ['b'] ['o'] ['a'] = s) ∧
    malformedIDError [','] = malformedIDError [','] :=
  ⟨bucketACLCreateResourceID_total_and_error_locality.1 ['b'] ['o'] ['a'],
   bucketACLCreateResourceID_total_and_error_locality.2 [','] (malformedIDError [','])
     (by decide)⟩

/-- C7: any input in which the qualifier separator `,` occurs at least twice (so
splitting yields three or more parts) falls through to the malformed-identifier
error. -/
theorem bucketACLParseResourceID_many_separators (id : List Char)
    (h : 2 ≤ List.count BucketAndExpectedBucketOwnerSeparator id) :
    (BucketACLParseResourceID id).err = some (malformedIDError id) := by
  have hl := length_stringsSplit BucketAndExpectedBucketOwnerSeparator id
  obtain ⟨x, y, z, t, hsp⟩ :
      ∃ x y z t, stringsSplit BucketAndExpectedBucketOwnerSeparator id = x :: y :: z :: t := by
    rcases hq : stringsSplit BucketAndExpectedBucketOwnerSeparator id with
      _ | ⟨x, _ | ⟨y, _ | ⟨z, t⟩⟩⟩
    · rw [hq] at hl; simp at hl
    · rw [hq] at hl; simp at hl; omega
    · rw [hq] at hl; simp at hl; omega
    · exact ⟨x, y, z, t, rfl⟩
  unfold BucketACLParseResourceID
  rw [hsp]

theorem bucketACLParseResourceID_many_separators_witness :
    2 ≤ List.count BucketAndExpectedBucketOwnerSeparator [',', ','] ∧
    (BucketACLParseResourceID [',', ',']).err = some (malformedIDError [',', ',']) :=
  ⟨by decide, bucketACLParseResourceID_many_separators [',', ','] (by decide)⟩

/-- C8: any input that splits on the qualifier separator into exactly two parts of
which at least one is empty fails with the malformed-identifier error. -/
theorem bucketACLParseResourceID_empty_top_part (id p0 p1 : List Char)
    (hsp : stringsSplit BucketAndExpectedBucketOwnerSeparator id = [p0, p1])
    (h : p0 = [] ∨ p1 = []) :
    (BucketACLParseResourceID id).err = some (malformedIDError id) := by
  have hn : ¬ (p0 ≠ [] ∧ p1 ≠ []) := by
    rcases h with h | h <;> simp [h]
  unfold BucketACLParseResourceID
  rw [hsp]
  simp [hn]

theorem bucketACLParseResourceID_empty_top_part_witness :
    stringsSplit BucketAndExpectedBucketOwnerSeparator "my-bucket,".data
        = ["my-bucket".data, []] ∧
    (BucketACLParseResourceID "my-bucket,".data).err
        = some (malformedIDError "my-bucket,".data) :=
  ⟨by decide,
   bucketACLParseResourceID_empty_top_part "my-bucket,".data "my-bucket".data []
     (by decide) (Or.inr rfl)⟩

theorem malformedIDError_eq (id : List Char) :
    malformedIDError id = "unexpected format for ID (".data ++ id ++
      "), expected BUCKET or BUCKET,EXPECTED_BUCKET_OWNER or BUCKET/ACL or BUCKET,EXPECTED_BUCKET_OWNER/ACL".data := by
  unfold malformedIDError BucketAclSeparator BucketAndExpectedBucketOwnerSeparator
  simp only [List.append_assoc]
  refine congrArg _ (congrArg _ ?_)
  decide

set_option maxRecDepth 4096 in
/-- C9: whenever `BucketACLParseResourceID` fails, the error message contains the
offending raw input string and each of the four accepted shapes `BUCKET`,
`BUCKET,EXPECTED_BUCKET_OWNER`, `BUCKET/ACL`, `BUCKET,EXPECTED_BUCKET_OWNER/ACL`. -/
theorem bucketACLParseResourceID_error_message (id msg : List Char)
    (h : (BucketACLParseResourceID id).err = some msg) :
    List.IsInfix id msg ∧
    List.IsInfix "BUCKET".data msg ∧
    List.IsInfix "BUCKET,EXPECTED_BUCKET_OWNER".data msg ∧
    List.IsInfix "BUCKET/ACL".data msg ∧
    List.IsInfix "BUCKET,EXPECTED_BUCKET_OWNER/ACL".data msg := by
  have hmsg : msg = malformedIDError id := by
    rcases bucketACLParseResourceID_err_shape id with h0 | h0 <;> rw [h0] at h
    · simp at h
    · exact (Option.some_inj.mp h).symm
  subst hmsg
  rw [malformedIDError_eq]
  have hS :
      List.IsInfix
        "), expected BUCKET or BUCKET,EXPECTED_BUCKET_OWNER or BUCKET/ACL or BUCKET,EXPECTED_BUCKET_OWNER/ACL".data
        ("unexpected format for ID (".data ++ id ++
          "), expected BUCKET or BUCKET,EXPECTED_BUCKET_OWNER or BUCKET/ACL or BUCKET,EXPECTED_BUCKET_OWNER/ACL".data) :=
    (List.suffix_append _ _).isInfix
  exact ⟨List.infix_append _ _ _,
    List.IsInfix.trans (by decide) hS,
    List.IsInfix.trans (by decide) hS,
    List.IsInfix.trans (by decide) hS,
    List.IsInfix.trans (by decide) hS⟩

theorem bucketACLParseResourceID_error_message_witness :
    List.IsInfix [','] (malformedIDError [',']) ∧
    List.IsInfix "BUCKET".data (malformedIDError [',']) ∧
    List.IsInfix "BUCKET,EXPECTED_BUCKET_OWNER".data (malformedIDError [',']) ∧
    List.IsInfix "BUCKET/ACL".data (malformedIDError [',']) ∧
    List.IsInfix "BUCKET,EXPECTED_BUCKET_OWNER/ACL".data (malformedIDError [',']) :=
  bucketACLParseResourceID_error_message [','] (malformedIDError [',']) (by decide)

theorem separators_distinct : BucketAndExpectedBucketOwnerSeparator ≠ BucketAclSeparator := by
  decide

/-- C1: for every non-empty bucket containing neither separator, and owner and acl
each free of both separators (possibly empty), parsing the encoded ID returns
exactly the original triple with a nil error. -/
theorem bucketACL_resourceID_roundtrip (bucket expectedBucketOwner acl : List Char)
    (hb : bucket ≠ [])
    (hbq : BucketAndExpectedBucketOwnerSeparator ∉ bucket)
    (hbe : BucketAclSeparator ∉ bucket)
    (hoq : BucketAndExpectedBucketOwnerSeparator ∉ expectedBucketOwner)
    (hoe : BucketAclSeparator ∉ expectedBucketOwner)
    (haq : BucketAndExpectedBucketOwnerSeparator ∉ acl)
    (hae : BucketAclSeparator ∉ acl) :
    BucketACLParseResourceID (BucketACLCreateResourceID bucket expectedBucketOwner acl)
      = ⟨bucket, expectedBucketOwner, acl, none⟩ := by
  by_cases ho : expectedBucketOwner = [] <;> by_cases ha : acl = []
  · subst ho; subst ha
    have henc : BucketACLCreateResourceID bucket [] [] = bucket := by
      simp [BucketACLCreateResourceID]
    rw [henc]
    unfold BucketACLParseResourceID
    rw [stringsSplit_of_not_mem hbq]
    simp [hb, stringsSplit_of_not_mem hbe]
  · subst ho
    have henc : BucketACLCreateResourceID bucket [] acl
        = bucket ++ BucketAclSeparator :: acl := by
      simp [BucketACLCreateResourceID, ha, stringsJoin_cons_cons, stringsJoin_singleton]
    have h1 : BucketAndExpectedBucketOwnerSeparator ∉ bucket ++ BucketAclSeparator :: acl := by
      simp [List.mem_append, List.mem_cons, hbq, haq, separators_distinct]
    have h2 : stringsSplit BucketAclSeparator (bucket ++ BucketAclSeparator :: acl)
        = [bucket, acl] := by
      rw [stringsSplit_append_cons acl hbe, stringsSplit_of_not_mem hae]
    rw [henc]
    unfold BucketACLParseResourceID
    rw [stringsSplit_of_not_mem h1]
    simp [h2, hb, ha]
  · subst ha
    have henc : BucketACLCreateResourceID bucket expectedBucketOwner []
        = bucket ++ BucketAndExpectedBucketOwnerSeparator :: expectedBucketOwner := by
      simp [BucketACLCreateResourceID, ho, stringsJoin_cons_cons, stringsJoin_singleton]
    have h1 : stringsSplit BucketAndExpectedBucketOwnerSeparator
        (bucket ++ BucketAndExpectedBucketOwnerSeparator :: expectedBucketOwner)
        = [bucket, expectedBucketOwner] := by
      rw [stringsSplit_append_cons expectedBucketOwner hbq, stringsSplit_of_not_mem hoq]
    rw [henc]
    unfold BucketACLParseResourceID
    rw [h1]
    simp [hb, ho, stringsSplit_of_not_mem hoe]
  · have henc : BucketACLCreateResourceID bucket expectedBucketOwner acl
        = bucket ++ BucketAndExpectedBucketOwnerSeparator ::
            (expectedBucketOwner ++ BucketAclSeparator :: acl) := by
      simp [BucketACLCreateResourceID, ho, ha, stringsJoin_cons_cons, stringsJoin_singleton]
    have hq2 : BucketAndExpectedBucketOwnerSeparator ∉
        expectedBucketOwner ++ BucketAclSeparator :: acl := by
      simp [List.mem_append, List.mem_cons, hoq, haq, separators_distinct]
    have h1 : stringsSplit BucketAndExpectedBucketOwnerSeparator
        (bucket ++ BucketAndExpectedBucketOwnerSeparator ::
          (expectedBucketOwner ++ BucketAclSeparator :: acl))
        = [bucket, expectedBucketOwner ++ BucketAclSeparator :: acl] := by
      rw [stringsSplit_append_cons _ hbq, stringsSplit_of_not_mem hq2]
    have h2 : stringsSplit BucketAclSeparator
        (expectedBucketOwner ++ BucketAclSeparator :: acl) = [expectedBucketOwner, acl] := by
      rw [stringsSplit_append_cons acl hoe, stringsSplit_of_not_mem hae]
    rw [henc]
    unfold BucketACLParseResourceID
    rw [h1]
    simp [h2, hb, ho, ha]

theorem bucketACL_resourceID_roundtrip_witness :
    BucketACLParseResourceID
        (BucketACLCreateResourceID "my-bucket".data "123456789012".data "private".data)
      = ⟨"my-bucket".data, "123456789012".data, "private".data, none⟩ :=
  bucketACL_resourceID_roundtrip "my-bucket".data "123456789012".data "private".data
    (by decide) (by decide) (by decide) (by decide) (by decide) (by decide) (by decide)

/-- C3: the parser succeeds exactly per the specification's decision procedure and
returns the same triple: viewing `BucketACLParseResourceID` through its optional
triple coincides with `specDecode` on every input. -/
theorem bucketACLParseResourceID_matches_specDecode (id : List Char) :
    (BucketACLParseResourceID id).toTriple = specDecode id := by
  unfold BucketACLParseResourceID specDecode
  rcases hq : stringsSplit BucketAndExpectedBucketOwnerSeparator id with _ | ⟨p0, _ | ⟨p1, r⟩⟩
  · rfl
  · by_cases h0 : p0 = []
    · simp [h0, ParseResult.toTriple]
    · rcases he : stringsSplit BucketAclSeparator p0 with _ | ⟨s0, _ | ⟨s1, _ | ⟨s2, r3⟩⟩⟩
      · exact absurd he (stringsSplit_ne_nil _ _)
      · have hs : s0 = p0 := (stringsSplit_eq_single he).1
        simp [he, h0, hs, ParseResult.toTriple]
      · by_cases hss : s0 ≠ [] ∧ s1 ≠ [] <;> simp [he, h0, hss, ParseResult.toTriple]
      · simp [he, h0, ParseResult.toTriple]
  · rcases r with _ | ⟨p2, r2⟩
    · by_cases hp : p0 ≠ [] ∧ p1 ≠ []
      · have hd : ¬ (p0 = [] ∨ p1 = []) := by
          rw [not_or]; exact hp
        rcases he : stringsSplit BucketAclSeparator p1 with _ | ⟨s0, _ | ⟨s1, _ | ⟨s2, r3⟩⟩⟩
        · exact absurd he (stringsSplit_ne_nil _ _)
        · have hs : s0 = p1 := (stringsSplit_eq_single he).1
          simp [he, hp, hd, hs, hp.2, ParseResult.toTriple]
        · by_cases hss : s0 ≠ [] ∧ s1 ≠ [] <;> simp [he, hp, hd, hss, ParseResult.toTriple]
        · simp [he, hp, hd, ParseResult.toTriple]
      · have hd : p0 = [] ∨ p1 = [] := by
          rcases not_and_or.mp hp with h | h
          · exact Or.inl (not_not.mp h)
          · exact Or.inr (not_not.mp h)
        simp [hp, hd, ParseResult.toTriple]
    · simp [ParseResult.toTriple]

/-- C10: on every input string the parser accepts, re-encoding the returned triple
gives back exactly the original ID; moreover every accepted ID yields a non-empty
bucket, and the returned owner and acl contain neither separator character. -/
theorem bucketACLCreateResourceID_left_inverse (id bucket expectedBucketOwner acl : List Char)
    (h : BucketACLParseResourceID id = ⟨bucket, expectedBucketOwner, acl, none⟩) :
    BucketACLCreateResourceID bucket expectedBucketOwner acl = id ∧
    bucket ≠ [] ∧
    BucketAndExpectedBucketOwnerSeparator ∉ expectedBucketOwner ∧
    BucketAclSeparator ∉ expectedBucketOwner ∧
    BucketAndExpectedBucketOwnerSeparator ∉ acl ∧
    BucketAclSeparator ∉ acl := by
  rcases hq : stringsSplit BucketAndExpectedBucketOwnerSeparator id with _ | ⟨p0, _ | ⟨p1, r⟩⟩
  · exact absurd hq (stringsSplit_ne_nil _ _)
  · by_cases h0 : p0 = []
    · have hcalc : BucketACLParseResourceID id = ⟨[], [], [], some (malformedIDError id)⟩ := by
        unfold BucketACLParseResourceID
        rw [hq]
        simp [h0]
      rw [hcalc] at h
      simp at h
    · rcases he : stringsSplit BucketAclSeparator p0 with _ | ⟨s0, _ | ⟨s1, _ | ⟨s2, r3⟩⟩⟩
      · exact absurd he (stringsSplit_ne_nil _ _)
      · have hcalc : BucketACLParseResourceID id = ⟨s0, [], [], none⟩ := by
          unfold BucketACLParseResourceID
          rw [hq]
          simp [h0, he]
        rw [hcalc] at h
        simp only [ParseResult.mk.injEq] at h
        obtain ⟨rfl, rfl, rfl, -⟩ := h
        obtain ⟨hid, -⟩ := stringsSplit_eq_single hq
        obtain ⟨hs, -⟩ := stringsSplit_eq_single he
        refine ⟨?_, ?_, by simp, by simp, by simp, by simp⟩
        · have henc : BucketACLCreateResourceID s0 [] [] = s0 := by
            simp [BucketACLCreateResourceID]
          rw [henc, hs, hid]
        · rw [hs]; exact h0
      · by_cases hss : s0 ≠ [] ∧ s1 ≠ []
        · have hcalc : BucketACLParseResourceID id = ⟨s0, [], s1, none⟩ := by
            unfold BucketACLParseResourceID
            rw [hq]
            simp [h0, he, hss]
          rw [hcalc] at h
          simp only [ParseResult.mk.injEq] at h
          obtain ⟨rfl, rfl, rfl, -⟩ := h
          obtain ⟨hid, hnq⟩ := stringsSplit_eq_single hq
          obtain ⟨hp0, hes0, hes1⟩ := stringsSplit_eq_pair he
          rw [← hid, hp0] at hnq
          simp only [List.mem_append, List.mem_cons, not_or] at hnq
          obtain ⟨hqs0, -, hqs1⟩ := hnq
          refine ⟨?_, hss.1, by simp, by simp, hqs1, hes1⟩
          have henc : BucketACLCreateResourceID s0 [] s1
              = s0 ++ BucketAclSeparator :: s1 := by
            simp [BucketACLCreateResourceID, hss.2, stringsJoin_cons_cons, stringsJoin_singleton]
          rw [henc, ← hp0, hid]
        · have hcalc : BucketACLParseResourceID id
              = ⟨[], [], [], some (malformedIDError id)⟩ := by
            unfold BucketACLParseResourceID
            rw [hq]
            simp [h0, he, hss]
          rw [hcalc] at h
          simp at h
      · have hcalc : BucketACLParseResourceID id
            = ⟨[], [], [], some (malformedIDError id)⟩ := by
          unfold BucketACLParseResourceID
          rw [hq]
          simp [h0, he]
        rw [hcalc] at h
        simp at h
  · rcases r with _ | ⟨p2, r2⟩
    · by_cases hp : p0 ≠ [] ∧ p1 ≠ []
      · rcases he : stringsSplit BucketAclSeparator p1 with _ | ⟨s0, _ | ⟨s1, _ | ⟨s2, r3⟩⟩⟩
        · exact absurd he (stringsSplit_ne_nil _ _)
        · have hcalc : BucketACLParseResourceID id = ⟨p0, s0, [], none⟩ := by
            unfold BucketACLParseResourceID
            rw [hq]
            simp [hp, he]
          rw [hcalc] at h
          simp only [ParseResult.mk.injEq] at h
          obtain ⟨rfl, rfl, rfl, -⟩ := h
          obtain ⟨hid, hqp0, hqp1⟩ := stringsSplit_eq_pair hq
          obtain ⟨hs, hep1⟩ := stringsSplit_eq_single he
          refine ⟨?_, hp.1, ?_, ?_, by simp, by simp⟩
          · have henc : BucketACLCreateResourceID p0 s0 []
                = p0 ++ BucketAndExpectedBucketOwnerSeparator :: s0 := by
              have hs0 : s0 ≠ [] := by rw [hs]; exact hp.2
              simp [BucketACLCreateResourceID, hs0,
                stringsJoin_cons_cons, stringsJoin_singleton]
            rw [henc, hs, ← hid]
          · rw [hs]; exact hqp1
          · rw [hs]; exact hep1
        · by_cases hss : s0 ≠ [] ∧ s1 ≠ []
          · have hcalc : BucketACLParseResourceID id = ⟨p0, s0, s1, none⟩ := by
              unfold BucketACLParseResourceID
              rw [hq]
              simp [hp, he, hss]
            rw [hcalc] at h
            simp only [ParseResult.mk.injEq] at h
            obtain ⟨rfl, rfl, rfl, -⟩ := h
            obtain ⟨hid, hqp0, hqp1⟩ := stringsSplit_eq_pair hq
            obtain ⟨hp1, hes0, hes1⟩ := stringsSplit_eq_pair he
            rw [hp1] at hqp1
            simp only [List.mem_append, List.mem_cons, not_or] at hqp1
            obtain ⟨hqs0, -, hqs1⟩ := hqp1
            refine ⟨?_, hp.1, hqs0, hes0, hqs1, hes1⟩
            have henc : BucketACLCreateResourceID p0 s0 s1
                = p0 ++ BucketAndExpectedBucketOwnerSeparator ::
                    (s0 ++ BucketAclSeparator :: s1) := by
              simp [BucketACLCreateResourceID, hss.1, hss.2,
                stringsJoin_cons_cons, stringsJoin_singleton]
            rw [henc, ← hp1, ← hid]
          · have hcalc : BucketACLParseResourceID id
                = ⟨[], [], [], some (malformedIDError id)⟩ := by
              unfold BucketACLParseResourceID
              rw [hq]
              simp [hp, he, hss]
            rw [hcalc] at h
            simp at h
        · have hcalc : BucketACLParseResourceID id
              = ⟨[], [], [], some (malformedIDError id)⟩ := by
            unfold BucketACLParseResourceID
            rw [hq]
            simp [hp, he]
          rw [hcalc] at h
          simp at h
      · have hcalc : BucketACLParseResourceID id
            = ⟨[], [], [], some (malformedIDError id)⟩ := by
          unfold BucketACLParseResourceID
          rw [hq]
          simp [hp]
        rw [hcalc] at h
        simp at h
    · have hcalc : BucketACLParseResourceID id
          = ⟨[], [], [], some (malformedIDError id)⟩ := by
        unfold BucketACLParseResourceID
        rw [hq]
      rw [hcalc] at h
      simp at h

theorem bucketACLCreateResourceID_left_inverse_witness :
    BucketACLCreateResourceID "my-bucket".data "123456789012".data "private".data
        = "my-bucket,123456789012/private".data ∧
    "my-bucket".data ≠ [] ∧
    BucketAndExpectedBucketOwnerSeparator ∉ "123456789012".data ∧
    BucketAclSeparator ∉ "123456789012".data ∧
    BucketAndExpectedBucketOwnerSeparator ∉ "private".data ∧
    BucketAclSeparator ∉ "private".data :=
  bucketACLCreateResourceID_left_inverse "my-bucket,123456789012/private".data
    "my-bucket".data "123456789012".data "private".data (by decide)
